import Mathlib

/-!
Shallow embedding of the planar audio buffer engine of
`sonata-core/src/audio.rs` (the Sonata project), together with proofs about
the properties its specification states.

Modelling conventions:
  - Rust `Vec<S>` becomes `List S`; machine integers (`usize`, `u64`, `u8`)
    become `Nat` (overflow is irrelevant at the scales the claims quantify
    over; the source itself only `debug_assert!`s that sample counts fit in
    `usize`).
  - `f64` time arithmetic is modelled over `ℚ`; at every concrete input used
    below the `f64` computation is exact (dyadic values), so the model and
    the machine agree there.
  - Rust panics (failed `assert!`, out-of-bounds slicing) are modelled by
    `Option`: `none` is a panic.  A fallible render callback returns
    `Except Unit`, mirroring `Result<()>`.
  - A render callback `FnMut(&mut AudioPlanesMut<S>, usize) -> Result<()>`
    is modelled as a function from the frame index and the current flat
    sample store to `Except Unit` of the new flat store; the borrow system
    of the source guarantees such a callback can never change the length of
    the allocation, which appears below as the `LengthPreserving`
    hypothesis.
-/

namespace Sonata

/-- Channel bit mask, `Channels` of the source: a `u32` bitflags value.
Only its population count (the channel count) matters to the claims. -/
structure Channels where
  bits : Nat
deriving DecidableEq

/-- Population count of a natural number, structurally recursive on a fuel
argument so that the kernel can evaluate it; `fuel = n` always suffices
because the binary length of `n` is at most `n`. -/
def popCountAux : Nat → Nat → Nat
  | 0, _ => 0
  | fuel + 1, n => if n = 0 then 0 else n % 2 + popCountAux fuel (n / 2)

/-- Model of `Channels::len`: `self.bits.count_ones()`, the number of set bits of
the mask. -/
def Channels.len (c : Channels) : Nat :=
  popCountAux c.bits c.bits

/-- Model of `SignalSpec { rate: u32, channels: Channels }`. -/
structure SignalSpec where
  rate : Nat
  channels : Channels
deriving DecidableEq

/-- Model of `Duration`: either an exact frame count or a span of seconds.  The
`f64` seconds value is modelled as a rational. -/
inductive Duration where
  | Frames (frames : Nat)
  | Seconds (time : ℚ)

/-- Model of `Dither`: enumeration of dither algorithms; only the no-op variant
exists.  The conversion code never reads it. -/
inductive Dither where
  | none

/-- The frame-capacity computation shared by `AudioBuffer::new` and
`SampleBuffer::new`:
`Duration::Frames(frames) => frames` and
`Duration::Seconds(time) => (time * (1f64 / spec.rate as f64)) as u64`.
The `as u64` cast truncates toward zero, which on a non-negative value is
`Nat.floor`.  For `rate > 0` and dyadic inputs the `f64` computation is
exact and agrees with this rational model. -/
def frameCapacity (duration : Duration) (spec : SignalSpec) : Nat :=
  match duration with
  | .Frames frames => frames
  | .Seconds time => ⌊time * (1 / (spec.rate : ℚ))⌋₊

/-- Model of `AudioBuffer<S>`: one flat allocation `buf` of `n_capacity` samples for
each channel, a signal spec, and the count `n_frames` of valid frames. -/
structure AudioBuffer (S : Type) where
  buf : List S
  spec : SignalSpec
  n_frames : Nat
  n_capacity : Nat
deriving DecidableEq

namespace AudioBuffer

/-- Model of `AudioBuffer::new`: computes the frame capacity from the duration,
then zero-initializes `capacity * channel_count` samples
(`vec![S::default(); n_sample_capacity]`). -/
def new (S : Type) [Inhabited S] (duration : Duration) (spec : SignalSpec) :
    AudioBuffer S :=
  let n_capacity := frameCapacity duration spec
  { buf := List.replicate (n_capacity * spec.channels.len) default
    spec := spec
    n_frames := 0
    n_capacity := n_capacity }

/-- Model of `AudioBuffer::unused`: no allocation, rate 0, empty channel set. -/
def unused (S : Type) : AudioBuffer S :=
  { buf := []
    spec := { rate := 0, channels := { bits := 0 } }
    n_frames := 0
    n_capacity := 0 }

/-- Model of `AudioBuffer::capacity`. -/
def capacity {S : Type} (b : AudioBuffer S) : Nat :=
  b.n_capacity

/-- Model of `Signal::frames for AudioBuffer`. -/
def frames {S : Type} (b : AudioBuffer S) : Nat :=
  b.n_frames

/-- Model of `Signal::clear for AudioBuffer`: `self.n_frames = 0;`. -/
def clear {S : Type} (b : AudioBuffer S) : AudioBuffer S :=
  { b with n_frames := 0 }

/-- Model of `Signal::chan for AudioBuffer`:
`let start = channel as usize * self.n_capacity;`
`&self.buf[start..start + self.n_frames]`.
Rust range slicing panics (here: `none`) exactly when the end of the range
exceeds the allocation length; no check against the channel count is made. -/
def chan {S : Type} (b : AudioBuffer S) (channel : Nat) : Option (List S) :=
  let start := channel * b.n_capacity
  if start + b.n_frames ≤ b.buf.length then
    some ((b.buf.drop start).take b.n_frames)
  else
    Option.none

/-- Model of `Signal::chan_pair_mut for AudioBuffer`: computes the two plane start
indices, asserts each is strictly below the allocation length, and returns
two raw mutable slices of length `n_frames` starting there.  The model
returns the pair of (start, length) ranges the two returned slices cover;
`none` models the assertion failure. -/
def chan_pair_mut {S : Type} (b : AudioBuffer S) (first second : Nat) :
    Option ((Nat × Nat) × (Nat × Nat)) :=
  let first_idx := b.n_capacity * first
  let second_idx := b.n_capacity * second
  if first_idx < b.buf.length ∧ second_idx < b.buf.length then
    some ((first_idx, b.n_frames), (second_idx, b.n_frames))
  else
    Option.none

/-- Model of `Signal::render_reserved for AudioBuffer`: advances `n_frames` by the
requested count (or by the remaining capacity), asserting the result stays
within capacity.  `none` models the assertion failure. -/
def render_reserved {S : Type} (b : AudioBuffer S) (n_frames : Option Nat) :
    Option (AudioBuffer S) :=
  let n_reserved_frames := n_frames.getD (b.n_capacity - b.n_frames)
  if b.n_frames + n_reserved_frames ≤ b.n_capacity then
    some { b with n_frames := b.n_frames + n_reserved_frames }
  else
    Option.none

/-- The `while self.n_frames < end` loop of `Signal::render`: invokes the
callback once per frame at the current absolute frame index, stopping at the
first failure; each success commits one frame.  `fuel` is `end - cur`.
Returns the final frame count, the final sample store, and `true` for `Ok`,
`false` for the propagated callback error. -/
def renderLoop {S : Type} (render : Nat → List S → Except Unit (List S)) :
    Nat → Nat → List S → Nat × List S × Bool
  | 0, cur, buf => (cur, buf, true)
  | fuel + 1, cur, buf =>
    match render cur buf with
    | .error _ => (cur, buf, false)
    | .ok buf' => renderLoop render fuel (cur + 1) buf'

/-- Model of `Signal::render for AudioBuffer`: computes the number of frames to
render (the remaining capacity when `n_frames` is `None`), asserts the end
stays within capacity (`none` models that panic), then runs the per-frame
loop.  The `Bool` is `true` for `Ok(())` and `false` for a propagated
callback error; in both cases the (partially) mutated buffer is kept. -/
def render {S : Type} (b : AudioBuffer S) (n_frames : Option Nat)
    (f : Nat → List S → Except Unit (List S)) :
    Option (AudioBuffer S × Bool) :=
  let n_render_frames := n_frames.getD (b.n_capacity - b.n_frames)
  if b.n_frames + n_render_frames ≤ b.n_capacity then
    let r := renderLoop f n_render_frames b.n_frames b.buf
    some ({ b with n_frames := r.1, buf := r.2.1 }, r.2.2)
  else
    Option.none

/-- Model of `Signal::fill for AudioBuffer`: `self.clear(); self.render(None, fill)`. -/
def fill {S : Type} (b : AudioBuffer S)
    (f : Nat → List S → Except Unit (List S)) :
    Option (AudioBuffer S × Bool) :=
  b.clear.render Option.none f

end AudioBuffer

end Sonata

namespace Sonata

/-- A render callback expressible in the source: mutating through the
borrowed plane views can never change the length of the allocation. -/
def LengthPreserving {S : Type} (f : Nat → List S → Except Unit (List S)) : Prop :=
  ∀ i buf buf', f i buf = .ok buf' → buf'.length = buf.length

/-- The buffer invariant: the frame cursor never exceeds the capacity and
the flat allocation holds exactly `capacity * channel_count` samples. -/
def Inv {S : Type} (b : AudioBuffer S) : Prop :=
  b.n_frames ≤ b.n_capacity ∧
  b.buf.length = b.n_capacity * b.spec.channels.len

end Sonata

namespace Sonata

/-- C2 failing input, mono spec at rate 4. -/
def specRate4 : SignalSpec :=
  { rate := 4, channels := { bits := 1 } }

/-- C1 failing input, stereo spec (FRONT_LEFT | FRONT_RIGHT). -/
def specStereo : SignalSpec :=
  { rate := 44100, channels := { bits := 3 } }

/-- The mutating operations of the `Signal` protocol, as data, so that
claims can quantify over arbitrary operation sequences. -/
inductive Op (S : Type) where
  | clearOp
  | renderOp (n : Option Nat) (f : Nat → List S → Except Unit (List S))
  | renderReservedOp (n : Option Nat)
  | fillOp (f : Nat → List S → Except Unit (List S))

/-- An operation is expressible in the source when its render callback is:
the borrow system forbids a callback from resizing the allocation. -/
def OpOK {S : Type} : Op S → Prop
  | .renderOp _ f => LengthPreserving f
  | .fillOp f => LengthPreserving f
  | _ => True

/-- One `Signal` operation applied to a buffer; `none` is a panic.  A
failing render callback is not a panic: the partially rendered buffer is
kept, exactly as the source keeps it. -/
def step {S : Type} (b : AudioBuffer S) : Op S → Option (AudioBuffer S)
  | .clearOp => some b.clear
  | .renderOp n f => (b.render n f).map Prod.fst
  | .renderReservedOp n => b.render_reserved n
  | .fillOp f => (b.fill f).map Prod.fst

/-- A sequence of `Signal` operations, stopping at the first panic. -/
def execOps {S : Type} (b : AudioBuffer S) : List (Op S) → Option (AudioBuffer S)
  | [] => some b
  | op :: ops =>
    match step b op with
    | some b' => execOps b' ops
    | Option.none => Option.none

/-- The buffer state reached by the C4 witness operation sequence. -/
def c4WitnessBuf : AudioBuffer Int :=
  { buf := List.replicate 4 0, spec := specStereo, n_frames := 2,
    n_capacity := 2 }


/-- The source buffer of the C5 witness: stereo, capacity 3, 2 valid
frames. -/
def c5WitnessBuf : AudioBuffer Nat :=
  { buf := [1, 2, 3, 4, 5, 6], spec := specStereo, n_frames := 2,
    n_capacity := 3 }

/-- The source buffer of the C6 witness: stereo, capacity 10, 3 valid
frames, flat allocation `0..19`. -/
def c6WitnessBuf : AudioBuffer Nat :=
  { buf := List.range 20, spec := specStereo, n_frames := 3,
    n_capacity := 10 }

/-- The general 3-plus-channel interleave loop of
`SampleBuffer::copy_interleaved` and `copy_interleaved_typed`
(`for i in 0..n_frames { for ch in 0..n_channels { write(src.buf[ch * stride + i]) } }`
with `stride = src.n_capacity`), as a standalone algorithm applicable at
any channel count: the comparison target of the path-equivalence claim.
The conversion `into` is `IntoSample::into_sample` in the typed variant and
the identity in the same-type variant. -/
def interleavedGeneralOut {F S : Type} [Inhabited F] (into : F → S)
    (src : AudioBuffer F) : List S :=
  ((List.range src.n_frames).map (fun i =>
    (List.range src.spec.channels.len).map (fun ch =>
      into (src.buf.getD (ch * src.n_capacity + i) default)))).flatten

/-- The sample sequence written by `SampleBuffer::copy_interleaved` and
`copy_interleaved_typed`: the match on the channel count with the
specialized straight-line paths for 0, mono and stereo channel counts, and
the general loop otherwise. -/
def interleavedOut {F S : Type} [Inhabited F] (into : F → S)
    (src : AudioBuffer F) : List S :=
  match src.spec.channels.len with
  | 0 => []
  | 1 => (src.buf.take src.n_frames).map into
  | 2 =>
    (((src.buf.take src.n_frames).zip
        ((src.buf.drop src.n_capacity).take src.n_frames)).map
      (fun p => [into p.1, into p.2])).flatten
  | _ => interleavedGeneralOut into src

/-- Model of `SampleBuffer::copy_interleaved_typed`: asserts
`self.capacity() >= n_frames * n_channels` (`none` models the panic), then
writes the interleaved sample sequence through the `SampleWriter`; the
model returns the sequence of samples written.  The dither argument is
never read by the source. -/
def copy_interleaved_typed {F S : Type} [Inhabited F] (dstCapacity : Nat)
    (into : F → S) (src : AudioBuffer F) (dither : Dither) :
    Option (List S) :=
  if src.n_frames * src.spec.channels.len ≤ dstCapacity then
    some (interleavedOut into src)
  else
    Option.none

/-- Model of `SampleBuffer::copy_interleaved`: the same-type copy; its body is the
typed variant with the conversion replaced by the identity. -/
def copy_interleaved {S : Type} [Inhabited S] (dstCapacity : Nat)
    (src : AudioBuffer S) : Option (List S) :=
  if src.n_frames * src.spec.channels.len ≤ dstCapacity then
    some (interleavedOut id src)
  else
    Option.none

/-- The interleave copy with the specialized 1- and 2-channel paths
replaced by the general loop: the spec-side comparison algorithm of the
path-equivalence claim. -/
def copy_interleaved_general {F S : Type} [Inhabited F] (dstCapacity : Nat)
    (into : F → S) (src : AudioBuffer F) : Option (List S) :=
  if src.n_frames * src.spec.channels.len ≤ dstCapacity then
    some (interleavedGeneralOut into src)
  else
    Option.none

/-- The sample sequence written by `SampleBuffer::copy_planar` and
`copy_planar_typed`
(`for ch in 0..n_channels { for sample in &src.buf[begin..begin + n_frames] { write } }`
with `begin = ch * src.n_capacity`). -/
def planarOut {F S : Type} (into : F → S) (src : AudioBuffer F) : List S :=
  ((List.range src.spec.channels.len).map (fun ch =>
    ((src.buf.drop (ch * src.n_capacity)).take src.n_frames).map into)).flatten

/-- Model of `SampleBuffer::copy_planar`: asserts
`self.capacity() >= n_frames * n_channels` (`none` models the panic), then
writes each channel plane in ascending channel order; the model returns the
sequence of samples written. -/
def copy_planar {S : Type} (dstCapacity : Nat) (src : AudioBuffer S) :
    Option (List S) :=
  if src.n_frames * src.spec.channels.len ≤ dstCapacity then
    some (planarOut id src)
  else
    Option.none

/-- One channel-plane write of the conversion loop: replaces
`dbuf[start..start + seg.length]` by `seg`, keeping everything else. -/
def writeSeg {T : Type} (dbuf : List T) (start : Nat) (seg : List T) :
    List T :=
  dbuf.take start ++ seg ++ dbuf.drop (start + seg.length)

/-- The channel loop of `ConvertibleAudioBuffer::convert for AudioBuffer`:
for each channel `c` below `n` in increasing order, overwrites
`dest.buf[begin..end]` with the converted samples of
`self.buf[begin..end]`, where `begin = c * self.n_capacity` and
`end = begin + self.n_frames`. -/
def convertLoop {F T : Type} (into : F → T) (srcbuf : List F)
    (cap nf : Nat) : Nat → List T → List T
  | 0, dbuf => dbuf
  | n + 1, dbuf =>
    writeSeg (convertLoop into srcbuf cap nf n dbuf) (n * cap)
      (((srcbuf.drop (n * cap)).take nf).map into)

/-- Model of `ConvertibleAudioBuffer::convert`: converts every valid sample of
`self` into the equivalent destination buffer (equivalence is checked only
by `debug_assert!` in the source); positions outside the valid regions keep
the previous contents of the destination.  The loop bounds all come from
`self` (the source buffer).  The dither argument is never read by the
source. -/
def convert {F T : Type} (into : F → T) (src : AudioBuffer F)
    (dest : AudioBuffer T) (dither : Dither) : AudioBuffer T :=
  { dest with
    buf := convertLoop into src.buf src.n_capacity src.n_frames
      src.spec.channels.len dest.buf }

/-- Modelled from the spec: the sample-kind conversion module (`conv.rs`,
trait `IntoSample`) is not among the excerpted sources.  Per the spec,
integer-to-float conversion "maps the full-scale integer range to
[-1.0, 1.0)": a 16-bit signed integer sample `v` becomes the 32-bit float
`v / 32768`.  The float is modelled as a rational; for `v` in the 16-bit
range the `f32` computation is exact (24-bit mantissa, power-of-two
divisor), so the model is faithful there. -/
def i16ToF32 (v : ℤ) : ℚ :=
  (v : ℚ) / 32768

/-- Modelled from the spec: the inverse full-scale mapping, 32-bit float to
16-bit integer: `v * 32768` with the fractional part dropped.  Every value
in the image of `i16ToF32` is an exact multiple, so no rounding occurs on
the round trip and any rounding convention agrees there. -/
def f32ToI16 (q : ℚ) : ℤ :=
  ⌊q * 32768⌋

/-- The source buffer of the C8 witness: a stereo 16-bit buffer, capacity
2, 2 valid frames, with full-scale and ordinary sample values. -/
def c8SrcBuf : AudioBuffer ℤ :=
  { buf := [12345, -32768, 32767, 0], spec := specStereo, n_frames := 2,
    n_capacity := 2 }

/-- The equivalent float destination of the C8 witness. -/
def c8MidBuf : AudioBuffer ℚ :=
  { buf := [0, 0, 0, 0], spec := specStereo, n_frames := 2,
    n_capacity := 2 }

/-- The equivalent 16-bit destination of the C8 witness round trip. -/
def c8DstBuf : AudioBuffer ℤ :=
  { buf := [0, 0, 0, 0], spec := specStereo, n_frames := 2,
    n_capacity := 2 }

/-- Modelled from the spec: the closed set of sample kinds of the sample
abstraction (`sample.rs` is not among the excerpted sources): 8/16/24/32
bit integers, signed and unsigned, and 32/64-bit floats. -/
inductive SampleKind where
  | u8
  | i8
  | u16
  | i16
  | u24
  | i24
  | u32
  | i32
  | f32
  | f64
deriving DecidableEq

/-- Modelled from the spec: the in-memory width `mem::size_of::<S>()` of
each sample kind.  The sub-byte-aligned 24-bit kinds are backed by a 32-bit
word in memory; per the spec glossary the exported stream form may be
"narrower ... than its in-memory representation". -/
def memSize : SampleKind → Nat
  | .u8 => 1
  | .i8 => 1
  | .u16 => 2
  | .i16 => 2
  | .u24 => 4
  | .i24 => 4
  | .u32 => 4
  | .i32 => 4
  | .f32 => 4
  | .f64 => 8

/-- Modelled from the spec: the exported stream representation width
`mem::size_of::<S::StreamType>()`: identical to the in-memory width for
ordinary kinds, a fixed 3-byte packed form for the 24-bit kinds. -/
def streamSize : SampleKind → Nat
  | .u24 => 3
  | .i24 => 3
  | k => memSize k

/-- Model of `SampleBuffer::new`: computes the frame count from the duration, then
allocates `n_frames * channels * mem::size_of::<S::StreamType>()` bytes;
the model records the byte length. -/
def sampleBufferByteLength (k : SampleKind) (duration : Duration)
    (spec : SignalSpec) : Nat :=
  frameCapacity duration spec * spec.channels.len * streamSize k

/-- Model of `SampleBuffer::capacity`: `self.buf.len() / mem::size_of::<S>()` - the
byte length divided by the in-memory width, not by the stream width used to
size the allocation. -/
def sampleBufferCapacity (k : SampleKind) (duration : Duration)
    (spec : SignalSpec) : Nat :=
  sampleBufferByteLength k duration spec / memSize k

/-- The source buffer of the C10 witness: stereo, 1 valid frame, so a copy
needs room for 2 samples. -/
def c10SrcBuf : AudioBuffer Nat :=
  { buf := [0, 0], spec := specStereo, n_frames := 1,
    n_capacity := 1 }

/-- C1 (code bug evidence): on a freshly constructed stereo buffer of one
frame with one frame rendered, `chan_pair_mut(0, 0)` is not rejected: it
succeeds and hands back two identical non-empty mutable ranges over channel
0 — the two views alias the same memory, contradicting the contract that
`i == j` must be rejected.  The source itself marks this in a FIXME as
instant undefined behaviour. -/
theorem chan_pair_mut_aliases_at_equal_indices :
    ∃ b1 : AudioBuffer Int,
      (AudioBuffer.new Int (Duration.Frames 1) specStereo).render_reserved
          (some 1) = some b1 ∧
      b1.chan_pair_mut 0 0 = some ((0, 1), (0, 1)) ∧
      (0, 1) = ((0, 1) : Nat × Nat) := by
  refine ⟨_, rfl, ?_, rfl⟩
  decide

/-- C2 (code bug evidence): constructing with `Duration::Seconds(2.0)` at
rate 4 yields frame capacity 0, because the source multiplies the time by
the reciprocal of the rate (i.e. divides by the rate); the specified
computation `seconds * rate` truncated toward zero gives 8.  At this input
the `f64` arithmetic of the source is exact, so the rational model is
faithful. -/
theorem frameCapacity_seconds_divides_by_rate :
    frameCapacity (Duration.Seconds 2) specRate4 = 0 ∧
    ⌊(2 : ℚ) * ((specRate4.rate : ℚ))⌋₊ = 8 := by
  constructor
  · show ⌊(2 : ℚ) * (1 / ((4 : Nat) : ℚ))⌋₊ = 0
    norm_num
  · show ⌊(2 : ℚ) * (((4 : Nat) : ℚ))⌋₊ = 8
    norm_num

/-- C7: `clear()` sets the frame count to 0 and changes nothing else: the
sample store, the capacity and the signal spec are untouched. -/
theorem clear_resets_frames_only {S : Type} (b : AudioBuffer S) :
    b.clear.frames = 0 ∧
    b.clear.buf = b.buf ∧
    b.clear.capacity = b.capacity ∧
    b.clear.spec = b.spec := by
  refine ⟨rfl, rfl, rfl, rfl⟩

/-- C9: with no frames written, `chan(c)` returns an empty slice without
failure for every channel index `c` with `c * capacity ≤ capacity * N` —
including out-of-range indices such as `c = N`; and in general `chan` fails
exactly when `c * capacity + frames` exceeds the allocation length, which is
the only (indirect) enforcement of the channel-index precondition. -/
theorem chan_bounds_only {S : Type} (b : AudioBuffer S)
    (hframes : b.n_frames = 0)
    (hlen : b.buf.length = b.n_capacity * b.spec.channels.len) :
    (∀ c : Nat, c * b.n_capacity ≤ b.n_capacity * b.spec.channels.len →
      b.chan c = some []) ∧
    (∀ (b' : AudioBuffer S) (c : Nat),
      b'.chan c = Option.none ↔ b'.buf.length < c * b'.n_capacity + b'.n_frames) := by
  constructor
  · intro c hc
    unfold AudioBuffer.chan
    rw [hframes, hlen]
    simp only [Nat.add_zero, if_pos hc, List.take_zero]
  · intro b' c
    unfold AudioBuffer.chan
    by_cases h : c * b'.n_capacity + b'.n_frames ≤ b'.buf.length
    · simp only [if_pos h]
      constructor
      · intro hcontra
        exact absurd hcontra (by simp)
      · intro hlt
        omega
    · simp only [if_neg h]
      constructor
      · intro _
        omega
      · intro _
        trivial

/-- If the render callback succeeds at every frame, the render loop runs to
the end of its fuel and commits every frame. -/
theorem renderLoop_all_ok {S : Type} (g : Nat → List S → Except Unit (List S))
    (hg : ∀ i buf, ∃ buf', g i buf = .ok buf') :
    ∀ (fuel cur : Nat) (buf : List S),
      ∃ buf2, AudioBuffer.renderLoop g fuel cur buf = (cur + fuel, buf2, true) := by
  intro fuel
  induction fuel with
  | zero =>
    intro cur buf
    exact ⟨buf, rfl⟩
  | succ n ih =>
    intro cur buf
    obtain ⟨buf', hbuf'⟩ := hg cur buf
    obtain ⟨buf2, h2⟩ := ih (cur + 1) buf'
    refine ⟨buf2, ?_⟩
    rw [show cur + (n + 1) = (cur + 1) + n by omega]
    simp only [AudioBuffer.renderLoop, hbuf']
    exact h2

/-- If the render callback succeeds strictly below frame `m` and fails at
frame `m`, the render loop stops with exactly `m` frames committed. -/
theorem renderLoop_stops_at_m {S : Type}
    (f : Nat → List S → Except Unit (List S)) (m : Nat)
    (hok : ∀ i buf, i < m → ∃ buf', f i buf = .ok buf')
    (herr : ∀ buf, f m buf = .error ()) :
    ∀ (fuel cur : Nat) (buf : List S), cur ≤ m → m < cur + fuel →
      ∃ buf2, AudioBuffer.renderLoop f fuel cur buf = (m, buf2, false) := by
  intro fuel
  induction fuel with
  | zero =>
    intro cur buf hle hlt
    omega
  | succ n ih =>
    intro cur buf hle hlt
    rcases Nat.eq_or_lt_of_le hle with heq | hlt'
    · subst heq
      exact ⟨buf, by simp only [AudioBuffer.renderLoop, herr buf]⟩
    · obtain ⟨buf', hbuf'⟩ := hok cur buf hlt'
      obtain ⟨buf2, h2⟩ := ih (cur + 1) buf' (by omega) (by omega)
      refine ⟨buf2, ?_⟩
      simp only [AudioBuffer.renderLoop, hbuf']
      exact h2

/-- C3: starting from an empty buffer of capacity at least `k`, a render of
`k` frames whose callback succeeds below frame `m` and fails at frame `m`
(`m < k`) returns the failure and leaves exactly `m` frames committed — not
0 and not `k` — while a callback that succeeds on every frame leaves `k`
frames committed and returns success. -/
theorem render_stops_at_failure {S : Type} (b : AudioBuffer S) (k m : Nat)
    (f g : Nat → List S → Except Unit (List S))
    (hb : b.n_frames = 0) (hk : k ≤ b.n_capacity) (hm : m < k)
    (hfok : ∀ i buf, i < m → ∃ buf', f i buf = .ok buf')
    (hferr : ∀ buf, f m buf = .error ())
    (hg : ∀ i buf, ∃ buf', g i buf = .ok buf') :
    (∃ b1, b.render (some k) f = some (b1, false) ∧ b1.frames = m) ∧
    (∃ b2, b.render (some k) g = some (b2, true) ∧ b2.frames = k) := by
  constructor
  · obtain ⟨buf2, h2⟩ :=
      renderLoop_stops_at_m f m hfok hferr k b.n_frames b.buf (by omega) (by omega)
    refine ⟨{ b with n_frames := m, buf := buf2 }, ?_, rfl⟩
    unfold AudioBuffer.render
    simp only [Option.getD_some, hb]
    rw [if_pos (by omega)]
    rw [hb] at h2
    rw [h2]
  · obtain ⟨buf2, h2⟩ := renderLoop_all_ok g hg k b.n_frames b.buf
    refine ⟨{ b with n_frames := b.n_frames + k, buf := buf2 }, ?_, ?_⟩
    · unfold AudioBuffer.render
      simp only [Option.getD_some, hb]
      rw [if_pos (by omega)]
      rw [hb] at h2
      rw [h2]
    · show b.n_frames + k = k
      omega

/-- C3 witness: a stereo buffer of capacity 3, requested count `k = 2`, a
callback failing at frame `m = 1`, and an always-succeeding callback. -/
theorem render_stops_at_failure_witness :
    (∃ b1, (AudioBuffer.new Int (Duration.Frames 3) specStereo).render (some 2)
        (fun i buf => if i < 1 then .ok buf else .error ()) = some (b1, false) ∧
      b1.frames = 1) ∧
    (∃ b2, (AudioBuffer.new Int (Duration.Frames 3) specStereo).render (some 2)
        (fun _ buf => .ok buf) = some (b2, true) ∧
      b2.frames = 2) := by
  refine render_stops_at_failure _ 2 1 _ _ (by decide) (by decide) (by decide)
    ?_ ?_ ?_
  · intro i buf hi
    exact ⟨buf, by simp [hi]⟩
  · intro buf
    simp
  · intro i buf
    exact ⟨buf, rfl⟩

/-- The render loop commits at most `fuel` additional frames. -/
theorem renderLoop_fst_le {S : Type} (f : Nat → List S → Except Unit (List S)) :
    ∀ (fuel cur : Nat) (buf : List S),
      (AudioBuffer.renderLoop f fuel cur buf).1 ≤ cur + fuel := by
  intro fuel
  induction fuel with
  | zero =>
    intro cur buf
    exact Nat.le_refl _
  | succ n ih =>
    intro cur buf
    simp only [AudioBuffer.renderLoop]
    cases hf : f cur buf with
    | error e =>
      simp only []
      omega
    | ok buf' =>
      simp only []
      have := ih (cur + 1) buf'
      omega

/-- With a length-preserving callback the render loop never changes the
length of the allocation. -/
theorem renderLoop_length {S : Type} (f : Nat → List S → Except Unit (List S))
    (hf : LengthPreserving f) :
    ∀ (fuel cur : Nat) (buf : List S),
      (AudioBuffer.renderLoop f fuel cur buf).2.1.length = buf.length := by
  intro fuel
  induction fuel with
  | zero =>
    intro cur buf
    rfl
  | succ n ih =>
    intro cur buf
    simp only [AudioBuffer.renderLoop]
    cases hfc : f cur buf with
    | error e =>
      rfl
    | ok buf' =>
      simp only []
      rw [ih (cur + 1) buf']
      exact hf cur buf buf' hfc

/-- Every single `Signal` operation that completes without a panic
preserves the buffer invariant. -/
theorem step_preserves_inv {S : Type} (b b' : AudioBuffer S) (op : Op S)
    (hinv : Inv b) (hok : OpOK op) (hstep : step b op = some b') : Inv b' := by
  obtain ⟨hfc, hlen⟩ := hinv
  cases op with
  | clearOp =>
    simp only [step] at hstep
    cases hstep
    exact ⟨Nat.zero_le _, hlen⟩
  | renderOp n f =>
    simp only [step, AudioBuffer.render] at hstep
    by_cases hg : b.n_frames + (n.getD (b.n_capacity - b.n_frames)) ≤ b.n_capacity
    · rw [if_pos hg] at hstep
      simp at hstep
      subst hstep
      refine ⟨?_, ?_⟩
      · have := renderLoop_fst_le f (n.getD (b.n_capacity - b.n_frames)) b.n_frames b.buf
        simpa using Nat.le_trans this hg
      · show (AudioBuffer.renderLoop f _ _ _).2.1.length = _
        rw [renderLoop_length f hok]
        exact hlen
    · rw [if_neg hg] at hstep
      simp at hstep
  | renderReservedOp n =>
    simp only [step, AudioBuffer.render_reserved] at hstep
    by_cases hg : b.n_frames + (n.getD (b.n_capacity - b.n_frames)) ≤ b.n_capacity
    · rw [if_pos hg] at hstep
      simp only [Option.some.injEq] at hstep
      subst hstep
      exact ⟨hg, hlen⟩
    · rw [if_neg hg] at hstep
      simp at hstep
  | fillOp f =>
    simp only [step, AudioBuffer.fill, AudioBuffer.render, AudioBuffer.clear] at hstep
    by_cases hg : 0 + (Option.getD Option.none (b.n_capacity - 0) : Nat) ≤ b.n_capacity
    · rw [if_pos hg] at hstep
      simp at hstep
      subst hstep
      refine ⟨?_, ?_⟩
      · have := renderLoop_fst_le f (Option.getD Option.none (b.n_capacity - 0)) 0 b.buf
        simpa using Nat.le_trans this hg
      · show (AudioBuffer.renderLoop f _ _ _).2.1.length = _
        rw [renderLoop_length f hok]
        exact hlen
    · rw [if_neg hg] at hstep
      simp at hstep

/-- A panic-free sequence of `Signal` operations preserves the invariant. -/
theorem execOps_preserves_inv {S : Type} :
    ∀ (ops : List (Op S)) (b b' : AudioBuffer S),
      Inv b → (∀ op ∈ ops, OpOK op) → execOps b ops = some b' → Inv b' := by
  intro ops
  induction ops with
  | nil =>
    intro b b' hinv _ hexec
    simp only [execOps, Option.some.injEq] at hexec
    subst hexec
    exact hinv
  | cons op rest ih =>
    intro b b' hinv hok hexec
    simp only [execOps] at hexec
    cases hstep : step b op with
    | none =>
      rw [hstep] at hexec
      simp at hexec
    | some b1 =>
      rw [hstep] at hexec
      exact ih b1 b'
        (step_preserves_inv b b1 op hinv (hok op (by simp)) hstep)
        (fun o ho => hok o (by simp [ho])) hexec

/-- Under the invariant, `chan` succeeds on every in-range channel and
returns exactly `frames` samples. -/
theorem chan_length_of_inv {S : Type} (b : AudioBuffer S) (hinv : Inv b)
    (c : Nat) (hc : c < b.spec.channels.len) :
    ∃ s, b.chan c = some s ∧ s.length = b.frames := by
  obtain ⟨hfc, hlen⟩ := hinv
  have hbound : c * b.n_capacity + b.n_frames ≤ b.buf.length := by
    rw [hlen]
    calc c * b.n_capacity + b.n_frames
        ≤ c * b.n_capacity + b.n_capacity := by omega
      _ = (c + 1) * b.n_capacity := by ring
      _ ≤ b.spec.channels.len * b.n_capacity := Nat.mul_le_mul_right _ (by omega)
      _ = b.n_capacity * b.spec.channels.len := Nat.mul_comm _ _
  refine ⟨(b.buf.drop (c * b.n_capacity)).take b.n_frames, ?_, ?_⟩
  · unfold AudioBuffer.chan
    rw [if_pos hbound]
  · rw [List.length_take, List.length_drop]
    show min b.n_frames (b.buf.length - c * b.n_capacity) = b.n_frames
    omega

/-- C4: starting from `new` or `unused`, after any panic-free sequence of
`clear`, `render`, `render_reserved` and `fill` operations, the invariant
`0 ≤ frames ≤ capacity` holds and every in-range channel accessor returns a
slice of exactly `frames` elements. -/
theorem signal_ops_invariant {S : Type} [Inhabited S]
    (b0 b' : AudioBuffer S) (ops : List (Op S))
    (h0 : b0 = AudioBuffer.unused S ∨
      ∃ d spec, b0 = AudioBuffer.new S d spec)
    (hok : ∀ op ∈ ops, OpOK op)
    (hexec : execOps b0 ops = some b') :
    b'.frames ≤ b'.capacity ∧
    ∀ c, c < b'.spec.channels.len →
      ∃ s, b'.chan c = some s ∧ s.length = b'.frames := by
  have hinv0 : Inv b0 := by
    rcases h0 with h | ⟨d, spec, h⟩
    · subst h
      exact ⟨Nat.le_refl _, rfl⟩
    · subst h
      refine ⟨Nat.zero_le _, ?_⟩
      simp [AudioBuffer.new, Inv]
  have hinv := execOps_preserves_inv ops b0 b' hinv0 hok hexec
  exact ⟨hinv.1, fun c hc => chan_length_of_inv b' hinv c hc⟩

/-- C4 witness: a stereo buffer of capacity 2 run through a reserve, a
clear and a full reserve; both channels then hold exactly 2 samples. -/
theorem signal_ops_invariant_witness :
    c4WitnessBuf.frames ≤ c4WitnessBuf.capacity ∧
    ∀ c, c < c4WitnessBuf.spec.channels.len →
      ∃ s, c4WitnessBuf.chan c = some s ∧ s.length = c4WitnessBuf.frames := by
  refine signal_ops_invariant
    (AudioBuffer.new Int (Duration.Frames 2) specStereo) c4WitnessBuf
    [Op.renderReservedOp (some 1), Op.clearOp, Op.renderReservedOp (some 2)]
    (Or.inr ⟨Duration.Frames 2, specStereo, rfl⟩) ?_ (by decide)
  intro op hop
  fin_cases hop <;> trivial

/-- C9 witness: a stereo buffer of capacity 3 with no frames written; the
out-of-range index `c = 2 = N` still yields an empty slice, and the failure
characterization holds. -/
theorem chan_bounds_only_witness :
    ((∀ c : Nat,
        c * (AudioBuffer.new Int (Duration.Frames 3) specStereo).n_capacity ≤
          (AudioBuffer.new Int (Duration.Frames 3) specStereo).n_capacity *
            (AudioBuffer.new Int (Duration.Frames 3) specStereo).spec.channels.len →
        (AudioBuffer.new Int (Duration.Frames 3) specStereo).chan c = some []) ∧
      (∀ (b' : AudioBuffer Int) (c : Nat),
        b'.chan c = Option.none ↔
          b'.buf.length < c * b'.n_capacity + b'.n_frames)) ∧
    (AudioBuffer.new Int (Duration.Frames 3) specStereo).chan 2 = some [] := by
  have h := chan_bounds_only (AudioBuffer.new Int (Duration.Frames 3) specStereo)
    (by decide) (by decide)
  exact ⟨h, h.1 2 (by decide)⟩


/-- Flattening a list of singleton lists is a map. -/
theorem flatten_map_singletons {α β : Type} (g : α → β) :
    ∀ l : List α, ((l.map (fun a => [g a])).flatten) = l.map g := by
  intro l
  induction l with
  | nil => rfl
  | cons hd tl ih => simp [ih]

/-- A plane segment `buf[s..s+nf]` has length `nf` when in bounds. -/
theorem seg_length {α : Type} (buf : List α) (s nf : Nat)
    (h : s + nf ≤ buf.length) : ((buf.drop s).take nf).length = nf := by
  rw [List.length_take, List.length_drop]
  omega

/-- Indexing into an in-bounds plane segment reads the flat allocation. -/
theorem seg_getD {α : Type} (buf : List α) (s nf i : Nat) (d : α)
    (hi : i < nf) (h : s + nf ≤ buf.length) :
    ((buf.drop s).take nf).getD i d = buf.getD (s + i) d := by
  have h1 : i < ((buf.drop s).take nf).length := by
    rw [seg_length buf s nf h]
    exact hi
  rw [List.getD_eq_getElem _ _ h1, List.getD_eq_getElem _ _ (by omega)]
  rw [List.getElem_take, List.getElem_drop]

/-- Indexing a flattening of uniform-length blocks. -/
theorem flatten_getD_uniform {α : Type} (d : α) (k : Nat) :
    ∀ ls : List (List α), (∀ l ∈ ls, l.length = k) →
      ∀ ch i, ch < ls.length → i < k →
        ls.flatten.getD (ch * k + i) d = (ls.getD ch []).getD i d := by
  intro ls
  induction ls with
  | nil =>
    intro _ ch i hch _
    exact absurd hch (by simp)
  | cons hd tl ih =>
    intro hk ch i hch hi
    rw [List.flatten_cons]
    cases ch with
    | zero =>
      have hhd : hd.length = k := hk hd (by simp)
      rw [Nat.zero_mul, Nat.zero_add,
        List.getD_append _ _ _ _ (by rw [hhd]; exact hi)]
      rfl
    | succ c =>
      have hhd : hd.length = k := hk hd (by simp)
      have harith : (c + 1) * k + i = hd.length + (c * k + i) := by
        rw [hhd]
        ring
      rw [harith, List.getD_append_right _ _ _ _ (by omega),
        Nat.add_sub_cancel_left]
      rw [ih (fun l hl => hk l (by simp [hl])) c i (by simpa using hch) hi]
      rfl

/-- Sum of a map that is constant on the list. -/
theorem sum_map_const_on {α : Type} (c : Nat) :
    ∀ (l : List α) (g : α → Nat), (∀ x ∈ l, g x = c) →
      (l.map g).sum = l.length * c := by
  intro l
  induction l with
  | nil =>
    intro g _
    simp
  | cons hd tl ih =>
    intro g h
    simp only [List.map_cons, List.sum_cons, List.length_cons]
    rw [h hd (by simp), ih g (fun x hx => h x (by simp [hx]))]
    ring

/-- The specialized mono and stereo interleave paths agree with the general
3-plus-channel loop. -/
theorem interleavedOut_eq_general {F S : Type} [Inhabited F] (into : F → S)
    (src : AudioBuffer F)
    (hN : src.spec.channels.len = 1 ∨ src.spec.channels.len = 2)
    (hlen : src.buf.length = src.n_capacity * src.spec.channels.len)
    (hf : src.n_frames ≤ src.n_capacity) :
    interleavedOut into src = interleavedGeneralOut into src := by
  rcases hN with h1 | h2
  · rw [h1, Nat.mul_one] at hlen
    have hnf : src.n_frames ≤ src.buf.length := by omega
    unfold interleavedOut interleavedGeneralOut
    rw [h1]
    show (src.buf.take src.n_frames).map into = _
    have hr1 : List.range 1 = [0] := rfl
    simp only [hr1, List.map_cons, List.map_nil, Nat.zero_mul, Nat.zero_add]
    rw [flatten_map_singletons (fun i => into (src.buf.getD i default))]
    refine List.ext_getElem ?_ ?_
    · simp only [List.length_map, List.length_take, List.length_range]
      omega
    · intro i hi1 hi2
      simp only [List.getElem_map, List.getElem_take, List.getElem_range]
      have hilt : i < src.buf.length := by
        simp only [List.length_map, List.length_take] at hi1
        omega
      rw [List.getD_eq_getElem _ _ hilt]
  · rw [h2] at hlen
    have hltot : src.buf.length = src.n_capacity * 2 := hlen
    unfold interleavedOut interleavedGeneralOut
    rw [h2]
    show (((src.buf.take src.n_frames).zip
        ((src.buf.drop src.n_capacity).take src.n_frames)).map
      (fun p => [into p.1, into p.2])).flatten = _
    have hr2 : List.range 2 = [0, 1] := rfl
    simp only [hr2, List.map_cons, List.map_nil, Nat.zero_mul, Nat.zero_add,
      Nat.one_mul]
    congr 1
    refine List.ext_getElem ?_ ?_
    · simp only [List.length_map, List.length_zip, List.length_take,
        List.length_drop, List.length_range]
      omega
    · intro i hi1 hi2
      have hziplen : i < ((src.buf.take src.n_frames).zip
          ((src.buf.drop src.n_capacity).take src.n_frames)).length := by
        simpa using hi1
      have hinf : i < src.n_frames := by
        simp only [List.length_zip, List.length_take, List.length_drop] at hziplen
        omega
      simp only [List.getElem_map, List.getElem_range, List.getElem_zip,
        List.getElem_take, List.getElem_drop]
      have hib : i < src.buf.length := by omega
      have hib2 : src.n_capacity + i < src.buf.length := by omega
      rw [List.getD_eq_getElem _ _ hib, List.getD_eq_getElem _ _ hib2]

/-- C5: for channel counts 1 and 2, both `copy_interleaved_typed` (any
sample conversion `into`) and the same-type `copy_interleaved` produce
exactly the output of the general 3-plus-channel interleave loop on the
same source buffer. -/
theorem copy_interleaved_specialized_eq_general {F S : Type} [Inhabited F]
    (dstCapacity : Nat) (into : F → S) (src : AudioBuffer F) (dither : Dither)
    (hN : src.spec.channels.len = 1 ∨ src.spec.channels.len = 2)
    (hlen : src.buf.length = src.n_capacity * src.spec.channels.len)
    (hf : src.n_frames ≤ src.n_capacity) :
    copy_interleaved_typed dstCapacity into src dither =
      copy_interleaved_general dstCapacity into src ∧
    copy_interleaved dstCapacity src =
      copy_interleaved_general dstCapacity id src := by
  constructor
  · unfold copy_interleaved_typed copy_interleaved_general
    rw [interleavedOut_eq_general into src hN hlen hf]
  · unfold copy_interleaved copy_interleaved_general
    rw [interleavedOut_eq_general id src hN hlen hf]

/-- C5 witness: a stereo buffer with capacity 3 and 2 valid frames,
exported with an injective conversion and with the identity. -/
theorem copy_interleaved_specialized_eq_general_witness :
    (copy_interleaved_typed 4 (fun x : Nat => x + 100) c5WitnessBuf
        Dither.none =
      copy_interleaved_general 4 (fun x : Nat => x + 100) c5WitnessBuf ∧
    copy_interleaved 4 c5WitnessBuf =
      copy_interleaved_general 4 id c5WitnessBuf) ∧
    copy_interleaved 4 c5WitnessBuf = some [1, 4, 2, 5] := by
  refine ⟨copy_interleaved_specialized_eq_general 4 _ _ Dither.none
    (Or.inr (by decide)) (by decide) (by decide), by decide⟩

/-- C6: when the destination capacity assertion passes, `copy_planar`
writes exactly `frames * channels` samples, laid out as `channels`
contiguous blocks of `frames` elements in ascending channel order, reading
block `ch`, offset `i` from flat position `ch * capacity + i` of the source
- the per-plane stride padding of the source is removed. -/
theorem copy_planar_densifies {S : Type} [Inhabited S]
    (dstCapacity : Nat) (src : AudioBuffer S)
    (hlen : src.buf.length = src.n_capacity * src.spec.channels.len)
    (hf : src.n_frames ≤ src.n_capacity)
    (hcap : src.n_frames * src.spec.channels.len ≤ dstCapacity) :
    copy_planar dstCapacity src = some (planarOut id src) ∧
    (planarOut id src).length =
      src.n_frames * src.spec.channels.len ∧
    ∀ ch i, ch < src.spec.channels.len → i < src.n_frames →
      (planarOut id src).getD (ch * src.n_frames + i) default =
        src.buf.getD (ch * src.n_capacity + i) default := by
  have hsegbound : ∀ ch, ch < src.spec.channels.len →
      ch * src.n_capacity + src.n_frames ≤ src.buf.length := by
    intro ch hch
    rw [hlen]
    calc ch * src.n_capacity + src.n_frames
        ≤ ch * src.n_capacity + src.n_capacity := by omega
      _ = (ch + 1) * src.n_capacity := by ring
      _ ≤ src.spec.channels.len * src.n_capacity :=
          Nat.mul_le_mul_right _ (by omega)
      _ = src.n_capacity * src.spec.channels.len := Nat.mul_comm _ _
  have hseglen : ∀ l ∈ (List.range src.spec.channels.len).map (fun ch =>
      ((src.buf.drop (ch * src.n_capacity)).take src.n_frames).map id),
      l.length = src.n_frames := by
    intro l hl
    rw [List.mem_map] at hl
    obtain ⟨ch, hch, rfl⟩ := hl
    rw [List.length_map]
    exact seg_length _ _ _ (hsegbound ch (List.mem_range.mp hch))
  refine ⟨?_, ?_, ?_⟩
  · unfold copy_planar
    rw [if_pos hcap]
  · unfold planarOut
    rw [List.length_flatten, List.map_map,
      sum_map_const_on src.n_frames _ _ (by
        intro ch hch
        have := hseglen (((src.buf.drop (ch * src.n_capacity)).take
          src.n_frames).map id) (List.mem_map.mpr ⟨ch, hch, rfl⟩)
        simpa using this)]
    rw [List.length_range]
    ring
  · intro ch i hch hi
    unfold planarOut
    rw [flatten_getD_uniform default src.n_frames _ hseglen ch i
      (by simpa using hch) hi]
    have hchlen : ch < ((List.range src.spec.channels.len).map (fun ch =>
        ((src.buf.drop (ch * src.n_capacity)).take src.n_frames).map id)).length := by
      simpa using hch
    rw [List.getD_eq_getElem _ _ hchlen, List.getElem_map, List.getElem_range,
      List.map_id]
    exact seg_getD _ _ _ _ _ hi (hsegbound ch hch)

/-- C6 witness: the concrete example of the claim - capacity 10, 3 valid
frames, 2 channels; the 6 output elements are the first three samples of
each plane, padding removed. -/
theorem copy_planar_densifies_witness :
    (copy_planar 6 c6WitnessBuf = some (planarOut id c6WitnessBuf) ∧
    (planarOut id c6WitnessBuf).length =
      c6WitnessBuf.n_frames * c6WitnessBuf.spec.channels.len ∧
    ∀ ch i, ch < c6WitnessBuf.spec.channels.len → i < c6WitnessBuf.n_frames →
      (planarOut id c6WitnessBuf).getD (ch * c6WitnessBuf.n_frames + i)
          default =
        c6WitnessBuf.buf.getD (ch * c6WitnessBuf.n_capacity + i) default) ∧
    copy_planar 6 c6WitnessBuf = some [0, 1, 2, 10, 11, 12] := by
  refine ⟨copy_planar_densifies 6 _ (by decide) (by decide) (by decide),
    by decide⟩


/-- A valid plane segment stays inside a `cap * N` flat allocation. -/
theorem plane_bound (cap nf N c : Nat) (hc : c < N) (hnf : nf ≤ cap) :
    c * cap + nf ≤ cap * N := by
  calc c * cap + nf ≤ c * cap + cap := by omega
    _ = (c + 1) * cap := by ring
    _ ≤ N * cap := Nat.mul_le_mul_right _ (by omega)
    _ = cap * N := Nat.mul_comm _ _

/-- Model of `writeSeg` preserves the allocation length when the segment fits. -/
theorem writeSeg_length {T : Type} (dbuf : List T) (start : Nat)
    (seg : List T) (h : start + seg.length ≤ dbuf.length) :
    (writeSeg dbuf start seg).length = dbuf.length := by
  unfold writeSeg
  simp only [List.length_append, List.length_take, List.length_drop]
  omega

/-- Model of `writeSeg` leaves positions before the segment untouched. -/
theorem writeSeg_getD_lt {T : Type} (dbuf : List T) (start : Nat)
    (seg : List T) (d : T) (j : Nat) (hj : j < start)
    (hs : start ≤ dbuf.length) :
    (writeSeg dbuf start seg).getD j d = dbuf.getD j d := by
  unfold writeSeg
  have htl : (dbuf.take start).length = start := by
    rw [List.length_take]
    omega
  rw [List.getD_append _ _ _ _ (by rw [List.length_append, htl]; omega),
    List.getD_append _ _ _ _ (by rw [htl]; omega)]
  have hjlen : j < dbuf.length := by omega
  rw [List.getD_eq_getElem _ _ (by rw [htl]; exact hj),
    List.getD_eq_getElem _ _ hjlen, List.getElem_take]

/-- Model of `writeSeg` places the segment at its offset. -/
theorem writeSeg_getD_mid {T : Type} (dbuf : List T) (start : Nat)
    (seg : List T) (d : T) (i : Nat) (hi : i < seg.length)
    (h : start + seg.length ≤ dbuf.length) :
    (writeSeg dbuf start seg).getD (start + i) d = seg.getD i d := by
  unfold writeSeg
  have htl : (dbuf.take start).length = start := by
    rw [List.length_take]
    omega
  rw [List.getD_append _ _ _ _ (by rw [List.length_append, htl]; omega),
    List.getD_append_right _ _ _ _ (by rw [htl]; omega), htl,
    Nat.add_sub_cancel_left]

/-- The conversion loop preserves the destination allocation length. -/
theorem convertLoop_length {F T : Type} (into : F → T) (srcbuf : List F)
    (cap nf : Nat) :
    ∀ (n : Nat) (dbuf : List T), (∀ c, c < n → c * cap + nf ≤ dbuf.length) →
      (convertLoop into srcbuf cap nf n dbuf).length = dbuf.length := by
  intro n
  induction n with
  | zero =>
    intro dbuf _
    rfl
  | succ n ih =>
    intro dbuf h
    have hinner : (convertLoop into srcbuf cap nf n dbuf).length =
        dbuf.length := ih dbuf (fun c hc => h c (by omega))
    show (writeSeg _ _ _).length = _
    rw [writeSeg_length _ _ _ (by
      rw [hinner]
      have hseg : ((((srcbuf.drop (n * cap)).take nf)).map into).length ≤ nf := by
        rw [List.length_map, List.length_take]
        exact Nat.min_le_left _ _
      have hn := h n (by omega)
      omega)]
    exact hinner

/-- The conversion loop writes `into src[pos]` at every valid position:
channel `c` below the processed count, frame offset `i` below the frame
count. -/
theorem convertLoop_getD {F T : Type} (into : F → T) (srcbuf : List F)
    (cap nf : Nat) (hnf : nf ≤ cap) :
    ∀ (n : Nat) (dbuf : List T),
      (∀ c, c < n → c * cap + nf ≤ dbuf.length) →
      (∀ c, c < n → c * cap + nf ≤ srcbuf.length) →
      ∀ (c i : Nat) (d : T) (dF : F), c < n → i < nf →
        (convertLoop into srcbuf cap nf n dbuf).getD (c * cap + i) d =
          into (srcbuf.getD (c * cap + i) dF) := by
  intro n
  induction n with
  | zero =>
    intro dbuf _ _ c i d dF hc _
    omega
  | succ n ih =>
    intro dbuf hdb hsb c i d dF hc hi
    have hinnerlen : (convertLoop into srcbuf cap nf n dbuf).length =
        dbuf.length := convertLoop_length into srcbuf cap nf n dbuf
      (fun c hc => hdb c (by omega))
    have hseglen : ((((srcbuf.drop (n * cap)).take nf)).map into).length = nf := by
      rw [List.length_map]
      exact seg_length _ _ _ (hsb n (by omega))
    rcases Nat.lt_or_ge c n with hcn | hcn
    · show (writeSeg _ _ _).getD _ _ = _
      rw [writeSeg_getD_lt _ _ _ _ _ (by
          calc c * cap + i < c * cap + cap := by omega
            _ = (c + 1) * cap := by ring
            _ ≤ n * cap := Nat.mul_le_mul_right _ (by omega))
        (by
          rw [hinnerlen]
          have := hdb n (by omega)
          omega)]
      exact ih dbuf (fun c hc => hdb c (by omega))
        (fun c hc => hsb c (by omega)) c i d dF hcn hi
    · have hceq : c = n := by omega
      subst hceq
      show (writeSeg _ _ _).getD _ _ = _
      rw [writeSeg_getD_mid _ _ _ _ _ (by rw [hseglen]; exact hi)
        (by
          rw [hseglen, hinnerlen]
          exact hdb c (by omega))]
      have hsbound := hsb c (by omega)
      have hlt : i < (((srcbuf.drop (c * cap)).take nf)).length := by
        rw [seg_length _ _ _ hsbound]
        exact hi
      rw [List.getD_eq_getElem _ _ (by rw [List.length_map]; exact hlt),
        List.getElem_map, List.getElem_take, List.getElem_drop,
        List.getD_eq_getElem _ _ (by omega)]

/-- The full-scale 16-bit integer to 32-bit float mapping is inverted
exactly by the float to integer mapping. -/
theorem f32ToI16_i16ToF32 (v : ℤ) : f32ToI16 (i16ToF32 v) = v := by
  unfold f32ToI16 i16ToF32
  rw [div_mul_cancel₀ _ (by norm_num : (32768 : ℚ) ≠ 0)]
  exact Int.floor_intCast v

/-- C8: converting a 16-bit integer buffer to an equivalent 32-bit float
buffer and back to an equivalent 16-bit integer buffer reproduces every
valid sample of the original exactly (the buffers being equivalent - same
frames, capacity and spec - and well formed, as `convert` requires). -/
theorem convert_roundtrip_exact (src : AudioBuffer ℤ) (d1 : AudioBuffer ℚ)
    (d2 : AudioBuffer ℤ) (dith1 dith2 : Dither)
    (hrange : ∀ x ∈ src.buf, -32768 ≤ x ∧ x < 32768)
    (heq1 : d1.n_frames = src.n_frames ∧ d1.n_capacity = src.n_capacity ∧
      d1.spec = src.spec)
    (heq2 : d2.n_frames = src.n_frames ∧ d2.n_capacity = src.n_capacity ∧
      d2.spec = src.spec)
    (hsrclen : src.buf.length = src.n_capacity * src.spec.channels.len)
    (hd1len : d1.buf.length = src.n_capacity * src.spec.channels.len)
    (hd2len : d2.buf.length = src.n_capacity * src.spec.channels.len)
    (hf : src.n_frames ≤ src.n_capacity) :
    ∀ c i, c < src.spec.channels.len → i < src.n_frames →
      (convert f32ToI16 (convert i16ToF32 src d1 dith1) d2 dith2).buf.getD
          (c * src.n_capacity + i) 0 =
        src.buf.getD (c * src.n_capacity + i) 0 := by
  intro c i hc hi
  have hmid : (convert i16ToF32 src d1 dith1).buf =
      convertLoop i16ToF32 src.buf src.n_capacity src.n_frames
        src.spec.channels.len d1.buf := rfl
  have hmidlen : (convert i16ToF32 src d1 dith1).buf.length =
      src.n_capacity * src.spec.channels.len := by
    rw [hmid, convertLoop_length _ _ _ _ _ _ (fun c hc => by
      rw [hd1len]
      exact plane_bound _ _ _ _ hc hf)]
    exact hd1len
  show (convertLoop f32ToI16 (convert i16ToF32 src d1 dith1).buf
      (convert i16ToF32 src d1 dith1).n_capacity
      (convert i16ToF32 src d1 dith1).n_frames
      (convert i16ToF32 src d1 dith1).spec.channels.len d2.buf).getD
      (c * src.n_capacity + i) 0 = _
  have hcap2 : (convert i16ToF32 src d1 dith1).n_capacity =
      src.n_capacity := heq1.2.1
  have hfr2 : (convert i16ToF32 src d1 dith1).n_frames = src.n_frames :=
    heq1.1
  have hspec2 : (convert i16ToF32 src d1 dith1).spec = src.spec := heq1.2.2
  rw [hcap2, hfr2, hspec2]
  rw [convertLoop_getD f32ToI16 _ _ _ hf src.spec.channels.len d2.buf
    (fun c hc => by rw [hd2len]; exact plane_bound _ _ _ _ hc hf)
    (fun c hc => by rw [hmidlen]; exact plane_bound _ _ _ _ hc hf)
    c i 0 0 hc hi]
  rw [hmid]
  rw [convertLoop_getD i16ToF32 _ _ _ hf src.spec.channels.len d1.buf
    (fun c hc => by rw [hd1len]; exact plane_bound _ _ _ _ hc hf)
    (fun c hc => by rw [hsrclen]; exact plane_bound _ _ _ _ hc hf)
    c i 0 0 hc hi]
  exact f32ToI16_i16ToF32 _

/-- C8 witness: the concrete stereo 16-bit round trip; position 1 holds the
full-scale value -32768 and survives the trip exactly. -/
theorem convert_roundtrip_exact_witness :
    (convert f32ToI16 (convert i16ToF32 c8SrcBuf c8MidBuf Dither.none)
        c8DstBuf Dither.none).buf.getD 1 0 = c8SrcBuf.buf.getD 1 0 ∧
    c8SrcBuf.buf.getD 1 0 = -32768 := by
  constructor
  · have h := convert_roundtrip_exact c8SrcBuf c8MidBuf c8DstBuf
      Dither.none Dither.none (by decide)
      ⟨by decide, by decide, by decide⟩ ⟨by decide, by decide, by decide⟩
      (by decide) (by decide) (by decide) (by decide) 0 1 (by decide)
      (by decide)
    simpa using h
  · decide

/-- C10 (counterexample to the claim as stated): with zero frames the
capacity of a 24-bit sample buffer equals `n * C = 0` even though the
stream width differs from the in-memory width, so "capacity equals `n * C`
only for kinds of equal widths" and "strictly less for the 3-byte packed
kinds" both fail at `n = 0`. -/
theorem sampleBufferCapacity_u24_zero_frames :
    sampleBufferCapacity SampleKind.u24 (Duration.Frames 0) specStereo =
      0 * specStereo.channels.len ∧
    streamSize SampleKind.u24 ≠ memSize SampleKind.u24 := by
  decide

/-- C10 (amended): the byte allocation is
`n * C * streamSize` and `capacity` divides it by the in-memory width; when
`n * C` is positive, `capacity = n * C` exactly for the kinds whose stream
width equals their in-memory width, and is strictly smaller for the 3-byte
packed 24-bit kinds - so the copy-operation assertion
`capacity >= n * C` fails on an exactly-sized buffer of such a kind. -/
theorem sampleBufferCapacity_amended (k : SampleKind) (n : Nat)
    (spec : SignalSpec) :
    sampleBufferByteLength k (Duration.Frames n) spec =
      n * spec.channels.len * streamSize k ∧
    sampleBufferCapacity k (Duration.Frames n) spec =
      n * spec.channels.len * streamSize k / memSize k ∧
    (0 < n * spec.channels.len →
      (sampleBufferCapacity k (Duration.Frames n) spec =
          n * spec.channels.len ↔ streamSize k = memSize k)) ∧
    (streamSize k < memSize k → 0 < n * spec.channels.len →
      sampleBufferCapacity k (Duration.Frames n) spec <
        n * spec.channels.len) := by
  have hm : 0 < memSize k := by cases k <;> decide
  have hs : streamSize k ≤ memSize k := by cases k <;> decide
  have hstrict : streamSize k < memSize k → 0 < n * spec.channels.len →
      sampleBufferCapacity k (Duration.Frames n) spec <
        n * spec.channels.len := by
    intro hlt hpos
    show n * spec.channels.len * streamSize k / memSize k < _
    rw [Nat.div_lt_iff_lt_mul hm]
    exact mul_lt_mul_of_pos_left hlt hpos
  refine ⟨rfl, rfl, ?_, hstrict⟩
  intro hpos
  constructor
  · intro hcap
    by_contra hne
    have hlt : streamSize k < memSize k := by omega
    have := hstrict hlt hpos
    omega
  · intro heq
    show n * spec.channels.len * streamSize k / memSize k = _
    rw [heq, Nat.mul_div_cancel _ hm]

/-- C10 witness: a 24-bit sample buffer sized for exactly 1 stereo frame
has capacity 1, strictly below the 2 samples a copy of 1 stereo frame
needs, and the copy assertion fails (`copy_planar` panics). -/
theorem sampleBufferCapacity_amended_witness :
    sampleBufferCapacity SampleKind.u24 (Duration.Frames 1) specStereo <
      1 * specStereo.channels.len ∧
    sampleBufferCapacity SampleKind.u24 (Duration.Frames 1) specStereo = 1 ∧
    copy_planar
      (sampleBufferCapacity SampleKind.u24 (Duration.Frames 1) specStereo)
      c10SrcBuf = Option.none := by
  refine ⟨(sampleBufferCapacity_amended SampleKind.u24 1 specStereo).2.2.2
    (by decide) (by decide), by decide, by decide⟩


end Sonata
